import Mathlib

/-!
Verification of the sender-side flow control core (max / min / preferred
strategies, option parser, strategy selector, registry) against its
natural-language specification.

The C code is shallowly embedded: the receiver table (a dynamic array) is a
`List Receiver`; stateful functions take the state and return the new state
paired with the returned send limit.  `int64_t` values are modelled as
unbounded `Int` (the C arithmetic in the modelled region is intended ideal
signed arithmetic; where `INT64_MAX` is used as a sentinel the theorems carry
explicit bounds).  Allocation failure in `AERON_ARRAY_ENSURE_CAPACITY` is
modelled by the explicit `ensure_capacity_ok` flag.
-/

set_option autoImplicit false

namespace AeronFC

/-- INT64_MAX, used by the C code as the initial accumulator of min folds. -/
def int64Max : Int := 9223372036854775807

/-- One tracked receiver: `aeron_min_flow_control_strategy_receiver_t`. -/
structure Receiver where
  last_position : Int
  last_position_plus_window : Int
  time_of_last_status_message : Int
  receiver_id : Int
  deriving DecidableEq

/-- State of the min strategy: `aeron_min_flow_control_strategy_state_t`.
The C dynamic array `receivers` (length/capacity/array) is modelled as a
list; capacity bookkeeping is not observable and is dropped. -/
structure MinState where
  receivers : List Receiver
  receiver_timeout_ns : Int
  deriving DecidableEq

/-- State of the preferred strategy:
`aeron_preferred_flow_control_strategy_state_t`. -/
structure PreferredState where
  min_flow_control_state : MinState
  receiver_tag : Int
  deriving DecidableEq

/-- Decoded status-message header fields consumed by the strategies
(`aeron_status_message_header_t` plus the optional receiver-tag field probed
by `aeron_udp_protocol_sm_receiver_tag`, which is absent or present). -/
structure StatusMessage where
  consumption_term_id : Int
  consumption_term_offset : Int
  receiver_window : Int
  receiver_id : Int
  receiver_tag : Option Int
  deriving DecidableEq

/-- Modelled from the spec: `aeron_logbuffer_compute_position` is external to
the two source files (spec section 1 supplies it as a pure helper; the
glossary gives positions as `(term_id * term_length) + term_offset` after
normalization by `initial_term_id`, with `term_length = 2 ^
position_bits_to_shift`). -/
def aeron_logbuffer_compute_position
    (term_id term_offset : Int) (position_bits_to_shift : Nat)
    (initial_term_id : Int) : Int :=
  (term_id - initial_term_id) * 2 ^ position_bits_to_shift + term_offset

/-! Max strategy (`aeron_flow_control.c`). -/

/-- `aeron_max_flow_control_strategy_on_idle`: returns `snd_lmt` unchanged. -/
def aeron_max_flow_control_strategy_on_idle
    (now_ns snd_lmt snd_pos : Int) (is_end_of_stream : Bool) : Int :=
  snd_lmt

/-- `aeron_max_flow_control_strategy_on_sm`. -/
def aeron_max_flow_control_strategy_on_sm
    (sm : StatusMessage) (snd_lmt initial_term_id : Int)
    (position_bits_to_shift : Nat) (now_ns : Int) : Int :=
  let position := aeron_logbuffer_compute_position
    sm.consumption_term_id sm.consumption_term_offset
    position_bits_to_shift initial_term_id
  let window_edge := position + sm.receiver_window
  if snd_lmt > window_edge then snd_lmt else window_edge

/-! Min / preferred strategies (`aeron_min_flow_control.c`). -/

/-- Update applied to a table entry during the scan of
`aeron_preferred_flow_control_apply_position_update`: when
`is_from_preferred` holds and the receiver id matches, `last_position`
becomes the larger of the old value and `position`, while
`last_position_plus_window` and `time_of_last_status_message` are overwritten
unconditionally; otherwise the entry is untouched. -/
def scan_update_one (position window_length receiver_id now_ns : Int)
    (is_from_preferred : Bool) (r : Receiver) : Receiver :=
  if is_from_preferred && (receiver_id == r.receiver_id) then
    { r with
      last_position := if position > r.last_position then position else r.last_position
      last_position_plus_window := position + window_length
      time_of_last_status_message := now_ns }
  else r

/-- The single walk over the receiver array in
`aeron_preferred_flow_control_apply_position_update` (lines 105-119): it
updates matching entries in place, records whether a match was seen
(`is_existing`) and folds the running minimum of
`last_position_plus_window` (post-update values, as in the C, which updates
the entry before folding it), starting from `INT64_MAX`.  The C folds the
minimum left to right into an accumulator; the value is
direction-insensitive and is folded here on the way out of the recursion. -/
def apply_update_scan (position window_length receiver_id now_ns : Int)
    (is_from_preferred : Bool) :
    List Receiver → List Receiver × Bool × Int
  | [] => ([], false, int64Max)
  | r :: rest =>
    let r' := scan_update_one position window_length receiver_id now_ns is_from_preferred r
    let s := apply_update_scan position window_length receiver_id now_ns is_from_preferred rest
    (r' :: s.1, (is_from_preferred && (receiver_id == r.receiver_id)) || s.2.1,
      if r'.last_position_plus_window < s.2.2 then r'.last_position_plus_window else s.2.2)

/-- Fold of the running minimum of `last_position_plus_window` starting from
`INT64_MAX`, as both the scan above and `on_idle` compute it. -/
def min_fold (rs : List Receiver) : Int :=
  rs.foldr
    (fun r mn => if r.last_position_plus_window < mn then r.last_position_plus_window else mn)
    int64Max

/-- `aeron_preferred_flow_control_apply_position_update` (lines 93-146).
`ensure_capacity_ok` models the result of `AERON_ARRAY_ENSURE_CAPACITY`:
when it fails the entry is not inserted and `min_position` falls back to
`snd_lmt` when the table was empty (line 141). -/
def aeron_preferred_flow_control_apply_position_update
    (strategy_state : MinState)
    (position window_length receiver_id snd_lmt now_ns : Int)
    (is_from_preferred : Bool) (ensure_capacity_ok : Bool) : MinState × Int :=
  let s := apply_update_scan position window_length receiver_id now_ns
    is_from_preferred strategy_state.receivers
  let rs := s.1
  let is_existing := s.2.1
  let min_position := s.2.2
  if is_from_preferred && !is_existing then
    if ensure_capacity_ok then
      let receiver : Receiver :=
        { last_position := position
          last_position_plus_window := position + window_length
          time_of_last_status_message := now_ns
          receiver_id := receiver_id }
      let min_position' :=
        if position + window_length < min_position then position + window_length else min_position
      ({ strategy_state with receivers := rs ++ [receiver] },
        if snd_lmt > min_position' then snd_lmt else min_position')
    else
      let min_position' := if rs.length = 0 then snd_lmt else min_position
      ({ strategy_state with receivers := rs },
        if snd_lmt > min_position' then snd_lmt else min_position')
  else
    ({ strategy_state with receivers := rs },
      if snd_lmt > min_position then snd_lmt else min_position)

/-- `aeron_min_flow_control_strategy_on_sm` (lines 149-175): computes the
position and delegates with `is_from_preferred = true`. -/
def aeron_min_flow_control_strategy_on_sm
    (state : MinState) (sm : StatusMessage) (snd_lmt initial_term_id : Int)
    (position_bits_to_shift : Nat) (now_ns : Int) (ensure_capacity_ok : Bool) :
    MinState × Int :=
  let position := aeron_logbuffer_compute_position
    sm.consumption_term_id sm.consumption_term_offset
    position_bits_to_shift initial_term_id
  aeron_preferred_flow_control_apply_position_update
    state position sm.receiver_window sm.receiver_id snd_lmt now_ns true ensure_capacity_ok

/-- Eviction test of `aeron_min_flow_control_strategy_on_idle` (line 73):
`(time_of_last_status_message + receiver_timeout_ns) - now_ns < 0`. -/
def receiver_timed_out (receiver_timeout_ns now_ns : Int) (r : Receiver) : Bool :=
  (r.time_of_last_status_message + receiver_timeout_ns) - now_ns < 0

/-- `aeron_min_flow_control_strategy_on_idle` (lines 59-91).  The C walks the
array backwards from the last index, removing timed-out entries by
swap-with-last; since every index above the current one has already been
visited, each original entry is visited exactly once and the surviving
entries are exactly those passing the timeout test, so the walk is modelled
as a filter (the C leaves survivors in a permuted order, which no operation
observes).  The minimum of `last_position_plus_window` over survivors is
folded from `INT64_MAX` and returned when any receiver remains, else
`snd_lmt`. -/
def aeron_min_flow_control_strategy_on_idle
    (state : MinState) (now_ns snd_lmt snd_pos : Int) (is_end_of_stream : Bool) :
    MinState × Int :=
  let survivors := state.receivers.filter
    (fun r => !receiver_timed_out state.receiver_timeout_ns now_ns r)
  let min_limit_position := min_fold survivors
  ({ state with receivers := survivors },
    if survivors.length > 0 then min_limit_position else snd_lmt)

/-- `aeron_preferred_flow_control_strategy_on_idle` (lines 248-264):
delegates to the min strategy over the embedded state. -/
def aeron_preferred_flow_control_strategy_on_idle
    (state : PreferredState) (now_ns snd_lmt snd_pos : Int) (is_end_of_stream : Bool) :
    PreferredState × Int :=
  let s := aeron_min_flow_control_strategy_on_idle
    state.min_flow_control_state now_ns snd_lmt snd_pos is_end_of_stream
  ({ state with min_flow_control_state := s.1 }, s.2)

/-- `aeron_preferred_flow_control_strategy_on_sm` (lines 266-306).
`aeron_udp_protocol_sm_receiver_tag` (external header) reports whether the
optional tag field was present; presence is modelled by `sm.receiver_tag`
being `some`. -/
def aeron_preferred_flow_control_strategy_on_sm
    (state : PreferredState) (sm : StatusMessage) (snd_lmt initial_term_id : Int)
    (position_bits_to_shift : Nat) (now_ns : Int) (ensure_capacity_ok : Bool) :
    PreferredState × Int :=
  let position := aeron_logbuffer_compute_position
    sm.consumption_term_id sm.consumption_term_offset
    position_bits_to_shift initial_term_id
  let window_length := sm.receiver_window
  let receiver_id := sm.receiver_id
  let is_from_preferred :=
    match sm.receiver_tag with
    | some sm_receiver_tag => sm_receiver_tag == state.receiver_tag
    | none => false
  if !is_from_preferred && state.min_flow_control_state.receivers.length == 0 then
    let position_plus_window := position + window_length
    (state, if snd_lmt > position_plus_window then snd_lmt else position_plus_window)
  else
    let s := aeron_preferred_flow_control_apply_position_update
      state.min_flow_control_state position window_length receiver_id snd_lmt now_ns
      is_from_preferred ensure_capacity_ok
    ({ state with min_flow_control_state := s.1 }, s.2)

/-! Option parser (`aeron_flow_control.c`, lines 216-337).  Strings are
modelled as `List Char`.  The two numeric helpers are external to the source
files and are taken as parameters: `pdur` models `aeron_parse_duration_ns`
(returning `none` on rejection) and `pint` models the `strtol` call together
with its `errno` / end-pointer acceptance test (returning `none` when the
value is not fully consumed as a decimal integer). -/

/-- AERON_FLOW_CONTROL_NUMBER_BUFFER_LEN. -/
def AERON_FLOW_CONTROL_NUMBER_BUFFER_LEN : Nat := 64

/-- NUL character, terminator of C strings. -/
def nulChar : Char := Char.ofNat 0

/-- Reading of a C string out of a fixed buffer: the characters before the
first NUL. -/
def c_string (buf : List Char) : List Char := buf.takeWhile (fun c => c != nulChar)

/-- Parser output `aeron_flow_control_preferred_options_t`.  `strategy_name`
is `none` while the C pointer is NULL; `strategy_name_length` is the length
of the carried list. -/
structure FcOptions where
  strategy_name : Option (List Char)
  timeout_ns : Nat
  has_receiver_tag : Bool
  receiver_tag : Int
  deriving DecidableEq

/-- Error of the parser and selector: always `EINVAL`, carrying the
offending field and the whole options string as the C diagnostics do. -/
inductive FcParseError where
  | invalidArgument (field : List Char) (options : List Char)
  deriving DecidableEq

/-- Tokenization performed by the do-while loop of
`aeron_flow_control_parse_preferred_options`: comma-separated fields, except
that after consuming a comma the loop only continues when bytes remain, so a
single empty field produced by a trailing comma is dropped. -/
def fcTokenizeGo (cur : List Char) : List Char → List (List Char)
  | [] => [cur.reverse]
  | c :: rest =>
    if c = ',' then
      match rest with
      | [] => [cur.reverse]
      | _ :: _ => cur.reverse :: fcTokenizeGo [] rest
    else fcTokenizeGo (c :: cur) rest

/-- Fields of an option string, per the loop of
`aeron_flow_control_parse_preferred_options`. -/
def fcTokenize (s : List Char) : List (List Char) := fcTokenizeGo [] s

/-- Body of the parse loop for one field (lines 253-330).  The first field
becomes the strategy name; a later field must have length above two, first
character `g` or `t` and second character `:`; its value is copied with
`strncpy` into the shared 64-byte number buffer (which is zeroed once before
the loop, so a shorter later value can leave a stale tail) and handed to the
numeric helper; anything else is an error. -/
def fc_process_option (pdur : List Char → Option Nat) (pint : List Char → Option Int)
    (options : List Char) (opts : FcOptions) (buf : List Char)
    (current_option : List Char) :
    Except FcParseError (FcOptions × List Char) :=
  if opts.strategy_name = none then
    .ok ({ opts with strategy_name := some current_option }, buf)
  else
    if (2 < current_option.length &&
        (current_option.getD 0 nulChar == 'g' || current_option.getD 0 nulChar == 't') &&
        current_option.getD 1 nulChar == ':') then
      let value := current_option.drop 2
      if AERON_FLOW_CONTROL_NUMBER_BUFFER_LEN ≤ value.length then
        .error (.invalidArgument value options)
      else
        let buf' := value ++ buf.drop value.length
        let number := c_string buf'
        if current_option.getD 0 nulChar == 'g' then
          match pint number with
          | some receiver_tag =>
            .ok ({ opts with has_receiver_tag := true, receiver_tag := receiver_tag }, buf')
          | none => .error (.invalidArgument current_option options)
        else
          match pdur number with
          | some timeout_ns => .ok ({ opts with timeout_ns := timeout_ns }, buf')
          | none => .error (.invalidArgument current_option options)
    else
      .error (.invalidArgument current_option options)

/-- Parse loop over the fields, threading the options record and the shared
number buffer. -/
def fc_parse_loop (pdur : List Char → Option Nat) (pint : List Char → Option Int)
    (options : List Char) :
    FcOptions → List Char → List (List Char) → Except FcParseError FcOptions
  | opts, _, [] => .ok opts
  | opts, buf, tok :: toks =>
    match fc_process_option pdur pint options opts buf tok with
    | .error e => .error e
    | .ok s => fc_parse_loop pdur pint options s.1 s.2 toks

/-- `aeron_flow_control_parse_preferred_options` (lines 216-337). -/
def aeron_flow_control_parse_preferred_options
    (pdur : List Char → Option Nat) (pint : List Char → Option Int)
    (options : List Char) : Except FcParseError FcOptions :=
  fc_parse_loop pdur pint options
    { strategy_name := none, timeout_ns := 0, has_receiver_tag := false, receiver_tag := -1 }
    (List.replicate AERON_FLOW_CONTROL_NUMBER_BUFFER_LEN nulChar)
    (fcTokenize options)

/-! Suppliers and strategy selector. -/

/-- `aeron_min_flow_control_strategy_supplier` (min_flow_control.c lines
206-239): empty receiver table; the timeout is the process-wide default
derived once from `AERON_MIN_MULTICAST_FLOW_CONTROL_RECEIVER_TIMEOUT` (the
one-shot environment read is external input here, passed as
`min_env_timeout_ns`).  The `fc` URI options are not consulted. -/
def aeron_min_flow_control_strategy_supplier (min_env_timeout_ns : Int) : MinState :=
  { receivers := [], receiver_timeout_ns := min_env_timeout_ns }

/-- `aeron_preferred_flow_control_strategy_supplier` (lines 337-385):
re-parses the channel's `fc` options (the selector already parsed them); the
timeout is the URI `t:` value when nonzero, else the process-wide default
derived from `AERON_PREFERRED_MULTICAST_FLOW_CONTROL_RECEIVER_TIMEOUT`
(passed as `preferred_env_timeout_ns`).  `none` models the `-1` return on
parse failure. -/
def aeron_preferred_flow_control_strategy_supplier
    (pdur : List Char → Option Nat) (pint : List Char → Option Int)
    (preferred_env_timeout_ns : Int) (fc_options : List Char) :
    Option PreferredState :=
  match aeron_flow_control_parse_preferred_options pdur pint fc_options with
  | .error _ => none
  | .ok options =>
    some
      { min_flow_control_state :=
          { receivers := []
            receiver_timeout_ns :=
              if options.timeout_ns ≠ 0 then (options.timeout_ns : Int)
              else preferred_env_timeout_ns }
        receiver_tag := options.receiver_tag }

/-- Outcome of `aeron_default_multicast_flow_control_strategy_supplier`:
which strategy was constructed (with its initial state), delegation to the
fallback supplier, or failure with `EINVAL`. -/
inductive ConstructedStrategy where
  | fallback
  | maxStrategy
  | minStrategy (state : MinState)
  | preferredStrategy (state : PreferredState)
  | invalidArgument
  deriving DecidableEq

/-- Length of the parsed strategy name, the C field `strategy_name_length`
(zero while the name pointer is NULL, as initialized). -/
def FcOptions.strategy_name_length (o : FcOptions) : Nat :=
  (o.strategy_name.getD []).length

/-- Body of `aeron_default_multicast_flow_control_strategy_supplier`
(aeron_flow_control.c lines 150-211) once the `fc` URI value is present:
parse, require a non-empty non-NULL name, then dispatch.  The name tests are
`strlen(name) == strategy_name_length && strncmp(name, strategy_name,
strlen(name)) == 0`, i.e. exact equality on the carried name. -/
def fc_selector_with_options
    (pdur : List Char → Option Nat) (pint : List Char → Option Int)
    (min_env_timeout_ns preferred_env_timeout_ns : Int)
    (flow_control_options : List Char) : ConstructedStrategy :=
  match aeron_flow_control_parse_preferred_options pdur pint flow_control_options with
  | .error _ => .invalidArgument
  | .ok preferred_options =>
    if preferred_options.strategy_name_length = 0 ∨
        preferred_options.strategy_name = none then .invalidArgument
    else if preferred_options.strategy_name = some ['m', 'a', 'x'] then .maxStrategy
    else if preferred_options.strategy_name = some ['m', 'i', 'n'] then
      if preferred_options.has_receiver_tag then
        match aeron_preferred_flow_control_strategy_supplier pdur pint
            preferred_env_timeout_ns flow_control_options with
        | some st => .preferredStrategy st
        | none => .invalidArgument
      else .minStrategy (aeron_min_flow_control_strategy_supplier min_env_timeout_ns)
    else .invalidArgument

/-- Entry point of `aeron_default_multicast_flow_control_strategy_supplier`:
`fc_param` is the value of the `fc` key in the channel URI's additional
parameters (`none` when absent, in which case the fallback supplier is
used). -/
def aeron_default_multicast_flow_control_strategy_supplier
    (pdur : List Char → Option Nat) (pint : List Char → Option Int)
    (min_env_timeout_ns preferred_env_timeout_ns : Int)
    (fc_param : Option (List Char)) : ConstructedStrategy :=
  match fc_param with
  | none => .fallback
  | some flow_control_options =>
    fc_selector_with_options pdur pint min_env_timeout_ns preferred_env_timeout_ns
      flow_control_options

/-! Registry (`aeron_flow_control.c` lines 125-148). -/

/-- Identity of a supplier function held in the registry table. -/
inductive SupplierFunc where
  | unicastMax
  | multicastMax
  | multicastMin
  deriving DecidableEq

/-- Modelled from the spec: the canonical registry name
`AERON_UNICAST_MAX_FLOW_CONTROL_STRATEGY_NAME`; the name macros live in
`aeron_flow_control.h`, outside the two source files (spec section 6.4 lists
the strings). -/
def AERON_UNICAST_MAX_FLOW_CONTROL_STRATEGY_NAME : List Char :=
  "aeron_unicast_max_flow_control_strategy".toList

/-- Modelled from the spec: the canonical registry name
`AERON_MULTICAST_MAX_FLOW_CONTROL_STRATEGY_NAME` (spec section 6.4). -/
def AERON_MULTICAST_MAX_FLOW_CONTROL_STRATEGY_NAME : List Char :=
  "aeron_max_multicast_flow_control_strategy".toList

/-- Modelled from the spec: the canonical registry name
`AERON_MULTICAST_MIN_FLOW_CONTROL_STRATEGY_NAME` (spec section 6.4). -/
def AERON_MULTICAST_MIN_FLOW_CONTROL_STRATEGY_NAME : List Char :=
  "aeron_min_multicast_flow_control_strategy".toList

/-- `aeron_flow_control_strategy_supplier_table` (lines 125-130). -/
def aeron_flow_control_strategy_supplier_table : List (List Char × SupplierFunc) :=
  [(AERON_UNICAST_MAX_FLOW_CONTROL_STRATEGY_NAME, .unicastMax),
   (AERON_MULTICAST_MAX_FLOW_CONTROL_STRATEGY_NAME, .multicastMax),
   (AERON_MULTICAST_MIN_FLOW_CONTROL_STRATEGY_NAME, .multicastMin)]

/-- Comparison `strncmp(entry_name, name, strlen(entry_name)) == 0` where
`name` is a NUL-terminated C string: compares the first
`entry_name.length` characters, and fails when `name` ends first (its NUL
differs from the remaining non-NUL characters of the entry name). -/
def strncmp_name : List Char → List Char → Bool
  | [], _ => true
  | _ :: _, [] => false
  | a :: as, b :: bs => a == b && strncmp_name as bs

/-- Linear search of `aeron_flow_control_strategy_supplier_by_name`
(lines 132-148). -/
def fc_supplier_lookup (name : List Char) :
    List (List Char × SupplierFunc) → Option SupplierFunc
  | [] => none
  | entry :: rest =>
    if strncmp_name entry.1 name then some entry.2 else fc_supplier_lookup name rest

/-- `aeron_flow_control_strategy_supplier_by_name`. -/
def aeron_flow_control_strategy_supplier_by_name (name : List Char) : Option SupplierFunc :=
  fc_supplier_lookup name aeron_flow_control_strategy_supplier_table

/-- Iterated application of accepted status-message updates from a single
receiver id: each element of `updates` is `(position, window_length,
now_ns)`, applied through the shared update routine with `is_from_preferred
= true` and successful allocation, state threaded left to right. -/
def run_min_sm_updates (state : MinState) (receiver_id snd_lmt : Int)
    (updates : List (Int × Int × Int)) : MinState :=
  updates.foldl
    (fun s u =>
      (aeron_preferred_flow_control_apply_position_update
        s u.1 u.2.1 receiver_id snd_lmt u.2.2 true true).1)
    state

/-! Helper lemmas. -/

theorem if_gt_eq_max (a b : Int) : (if a > b then a else b) = max a b := by
  rcases le_total a b with h | h
  · rw [max_eq_right h]; split <;> omega
  · rw [max_eq_left h]; split <;> omega

theorem min_fold_nil : min_fold [] = int64Max := rfl

theorem min_fold_cons (r : Receiver) (rs : List Receiver) :
    min_fold (r :: rs) =
      if r.last_position_plus_window < min_fold rs then r.last_position_plus_window
      else min_fold rs := rfl

theorem min_fold_le_int64Max (rs : List Receiver) : min_fold rs ≤ int64Max := by
  induction rs with
  | nil => exact le_refl _
  | cons r rs ih => rw [min_fold_cons]; split <;> omega

theorem min_fold_le {rs : List Receiver} {r : Receiver} (hr : r ∈ rs) :
    min_fold rs ≤ r.last_position_plus_window := by
  induction rs with
  | nil => cases hr
  | cons a rs ih =>
    rw [min_fold_cons]
    rcases List.mem_cons.mp hr with h | h
    · subst h; split <;> omega
    · have := ih h; split <;> omega

theorem min_fold_mem (rs : List Receiver) :
    min_fold rs = int64Max ∨ ∃ r ∈ rs, min_fold rs = r.last_position_plus_window := by
  induction rs with
  | nil => exact Or.inl rfl
  | cons a rs ih =>
    rw [min_fold_cons]
    by_cases h : a.last_position_plus_window < min_fold rs
    · exact Or.inr ⟨a, List.mem_cons_self a rs, by simp [h]⟩
    · simp only [if_neg h]
      rcases ih with h1 | ⟨r, hr, h2⟩
      · exact Or.inl h1
      · exact Or.inr ⟨r, List.mem_cons_of_mem _ hr, h2⟩

theorem min_fold_attained {rs : List Receiver} (hne : rs ≠ [])
    (hb : ∀ r ∈ rs, r.last_position_plus_window ≤ int64Max) :
    ∃ r ∈ rs, min_fold rs = r.last_position_plus_window := by
  rcases min_fold_mem rs with h | h
  · cases rs with
    | nil => exact absurd rfl hne
    | cons a rs =>
      refine ⟨a, List.mem_cons_self a rs, ?_⟩
      have h1 := min_fold_le (List.mem_cons_self a rs)
      have h2 := hb a (List.mem_cons_self a rs)
      omega
  · exact h

theorem min_fold_append (rs : List Receiver) (r : Receiver) :
    min_fold (rs ++ [r]) =
      if r.last_position_plus_window < min_fold rs then r.last_position_plus_window
      else min_fold rs := by
  induction rs with
  | nil => rw [List.nil_append, min_fold_cons, min_fold_nil]
  | cons a rs ih =>
    rw [List.cons_append, min_fold_cons, min_fold_cons, ih]
    split_ifs <;> omega

theorem scan_update_one_receiver_id (p w id now : Int) (pref : Bool) (r : Receiver) :
    (scan_update_one p w id now pref r).receiver_id = r.receiver_id := by
  unfold scan_update_one; split <;> rfl

theorem scan_update_one_false (p w id now : Int) (r : Receiver) :
    scan_update_one p w id now false r = r := by
  unfold scan_update_one; simp

theorem scan_update_one_last_position (p w id now : Int) (pref : Bool) (r : Receiver) :
    r.last_position ≤ (scan_update_one p w id now pref r).last_position := by
  unfold scan_update_one
  split
  · show r.last_position ≤ if p > r.last_position then p else r.last_position
    split <;> omega
  · exact le_refl _

theorem scan_update_one_hit (p w id now : Int) (r : Receiver) (h : r.receiver_id = id) :
    scan_update_one p w id now true r =
      { r with
        last_position := if p > r.last_position then p else r.last_position
        last_position_plus_window := p + w
        time_of_last_status_message := now } := by
  unfold scan_update_one
  rw [if_pos]
  simp [h]

theorem scan_update_one_miss (p w id now : Int) (r : Receiver) (h : r.receiver_id ≠ id) :
    scan_update_one p w id now true r = r := by
  unfold scan_update_one
  rw [if_neg]
  simp [beq_iff_eq]
  exact fun hh => absurd hh.symm h

theorem scan_update_one_lppw_le (p w id now : Int) (pref : Bool) (r : Receiver)
    (hb : r.last_position_plus_window ≤ int64Max) (hb2 : p + w ≤ int64Max) :
    (scan_update_one p w id now pref r).last_position_plus_window ≤ int64Max := by
  unfold scan_update_one
  split
  · exact hb2
  · exact hb

theorem apply_update_scan_fst (p w id now : Int) (pref : Bool) (rs : List Receiver) :
    (apply_update_scan p w id now pref rs).1 = rs.map (scan_update_one p w id now pref) := by
  induction rs with
  | nil => rfl
  | cons r rs ih => simp only [apply_update_scan, List.map_cons, ih]

theorem apply_update_scan_existing (p w id now : Int) (pref : Bool) (rs : List Receiver) :
    (apply_update_scan p w id now pref rs).2.1 =
      rs.any (fun r => pref && (id == r.receiver_id)) := by
  induction rs with
  | nil => rfl
  | cons r rs ih => simp only [apply_update_scan, List.any_cons, ih]

theorem apply_update_scan_min (p w id now : Int) (pref : Bool) (rs : List Receiver) :
    (apply_update_scan p w id now pref rs).2.2 =
      min_fold (apply_update_scan p w id now pref rs).1 := by
  induction rs with
  | nil => rfl
  | cons r rs ih => simp only [apply_update_scan, min_fold_cons, ih]

theorem apply_update_true_spec (st : MinState) (p w id snd now : Int)
    (hb : ∀ r ∈ st.receivers, r.last_position_plus_window ≤ int64Max)
    (hb2 : p + w ≤ int64Max) :
    ∀ st' ret,
      aeron_preferred_flow_control_apply_position_update st p w id snd now true true = (st', ret) →
      st'.receivers ≠ [] ∧
      (∀ r ∈ st'.receivers, r.last_position_plus_window ≤ int64Max) ∧
      (∃ r ∈ st'.receivers, r.receiver_id = id) ∧
      ret = max snd (min_fold st'.receivers) := by
  intro st' ret h
  unfold aeron_preferred_flow_control_apply_position_update at h
  simp only [apply_update_scan_fst, apply_update_scan_existing, apply_update_scan_min] at h
  by_cases hex : st.receivers.any (fun r => true && (id == r.receiver_id)) = true
  · rw [hex] at h
    simp only [Bool.not_true, Bool.and_false, Bool.false_eq_true, if_false] at h
    obtain ⟨hst, hret⟩ := Prod.mk.injEq .. ▸ h
    have hrecv : st'.receivers = st.receivers.map (scan_update_one p w id now true) := by
      rw [← hst]
    subst hret
    simp only [List.any_eq_true, Bool.true_and, beq_iff_eq] at hex
    obtain ⟨r0, hr0, hid0⟩ := hex
    refine ⟨?_, ?_, ?_, ?_⟩
    · rw [hrecv]
      simp only [ne_eq, List.map_eq_nil_iff]
      intro hnil
      rw [hnil] at hr0
      cases hr0
    · intro r hr
      rw [hrecv] at hr
      obtain ⟨r1, hr1, hr1e⟩ := List.mem_map.mp hr
      rw [← hr1e]
      exact scan_update_one_lppw_le p w id now true r1 (hb r1 hr1) hb2
    · refine ⟨scan_update_one p w id now true r0, ?_, ?_⟩
      · rw [hrecv]; exact List.mem_map_of_mem _ hr0
      · rw [scan_update_one_receiver_id, hid0]
    · rw [hrecv, if_gt_eq_max]
  · rw [Bool.not_eq_true] at hex
    rw [hex] at h
    simp only [Bool.not_false, Bool.and_true, if_true, ite_true] at h
    obtain ⟨hst, hret⟩ := Prod.mk.injEq .. ▸ h
    have hrecv : st'.receivers =
        st.receivers.map (scan_update_one p w id now true) ++
          [{ last_position := p, last_position_plus_window := p + w,
             time_of_last_status_message := now, receiver_id := id }] := by
      rw [← hst]
    subst hret
    refine ⟨?_, ?_, ?_, ?_⟩
    · rw [hrecv]; exact (List.append_ne_nil_of_right_ne_nil _ (by simp))
    · intro r hr
      rw [hrecv] at hr
      rcases List.mem_append.mp hr with hr | hr
      · obtain ⟨r1, hr1, hr1e⟩ := List.mem_map.mp hr
        rw [← hr1e]
        exact scan_update_one_lppw_le p w id now true r1 (hb r1 hr1) hb2
      · rw [List.mem_singleton.mp hr]; exact hb2
    · refine ⟨{ last_position := p, last_position_plus_window := p + w,
                time_of_last_status_message := now, receiver_id := id }, ?_, rfl⟩
      rw [hrecv]
      exact List.mem_append_right _ (List.mem_singleton.mpr rfl)
    · rw [hrecv, min_fold_append, if_gt_eq_max]

/-- C1: for the min strategy, after any sequence of status messages (each
processed with `is_from_preferred = true`), every call to
`on_status_message` returns exactly `max(snd_lmt, minimum over all tracked
receivers of last_position_plus_window)`, where the tracked set includes the
record updated or inserted for the status message's `receiver_id` (insertion
assumed to succeed: `ensure_capacity_ok = true`).  The bounds `hb` and `hb2`
record that `int64_t` quantities do not exceed `INT64_MAX`, the sentinel the
fold starts from. -/
theorem min_on_sm_returns_max_snd_lmt_of_min_window
    (state : MinState) (sm : StatusMessage) (snd_lmt initial_term_id : Int)
    (position_bits_to_shift : Nat) (now_ns : Int)
    (hb : ∀ r ∈ state.receivers, r.last_position_plus_window ≤ int64Max)
    (hb2 : aeron_logbuffer_compute_position sm.consumption_term_id sm.consumption_term_offset
        position_bits_to_shift initial_term_id + sm.receiver_window ≤ int64Max) :
    ∀ state' ret,
      aeron_min_flow_control_strategy_on_sm state sm snd_lmt initial_term_id
        position_bits_to_shift now_ns true = (state', ret) →
      ∃ m, (∃ r ∈ state'.receivers, r.last_position_plus_window = m) ∧
        (∀ r ∈ state'.receivers, m ≤ r.last_position_plus_window) ∧
        (∃ r ∈ state'.receivers, r.receiver_id = sm.receiver_id) ∧
        ret = max snd_lmt m := by
  intro state' ret h
  unfold aeron_min_flow_control_strategy_on_sm at h
  obtain ⟨hne, hb', hid, hret⟩ :=
    apply_update_true_spec state _ sm.receiver_window sm.receiver_id snd_lmt now_ns
      hb hb2 state' ret h
  refine ⟨min_fold state'.receivers, ?_, ?_, hid, hret⟩
  · exact (min_fold_attained hne hb').imp (fun r hr => ⟨hr.1, hr.2.symm⟩)
  · intro r hr
    exact min_fold_le hr

/-- Concrete empty min state used to instantiate theorems. -/
def c1_state : MinState := { receivers := [], receiver_timeout_ns := 5000000000 }

/-- Concrete status message (spec section 8, first literal scenario). -/
def c1_sm : StatusMessage :=
  { consumption_term_id := 0, consumption_term_offset := 4096, receiver_window := 65536,
    receiver_id := 1, receiver_tag := none }

/-- Witness for C1: the min-reduction theorem applied at the spec's literal
scenario (term 0, offset 4096, window 65536, shift 16, `snd_lmt = 0`). -/
theorem min_on_sm_returns_max_snd_lmt_of_min_window_witness :
    ∃ m,
      (∃ r ∈ (aeron_min_flow_control_strategy_on_sm c1_state c1_sm 0 0 16 0 true).1.receivers,
        r.last_position_plus_window = m) ∧
      (∀ r ∈ (aeron_min_flow_control_strategy_on_sm c1_state c1_sm 0 0 16 0 true).1.receivers,
        m ≤ r.last_position_plus_window) ∧
      (∃ r ∈ (aeron_min_flow_control_strategy_on_sm c1_state c1_sm 0 0 16 0 true).1.receivers,
        r.receiver_id = c1_sm.receiver_id) ∧
      (aeron_min_flow_control_strategy_on_sm c1_state c1_sm 0 0 16 0 true).2 = max 0 m :=
  min_on_sm_returns_max_snd_lmt_of_min_window c1_state c1_sm 0 0 16 0
    (by decide) (by decide) _ _ rfl

/-- Bool test of the eviction condition versus its arithmetic reading. -/
theorem receiver_timed_out_iff (timeout now : Int) (r : Receiver) :
    receiver_timed_out timeout now r = true ↔
      now - r.time_of_last_status_message > timeout := by
  unfold receiver_timed_out
  rw [decide_eq_true_eq]
  omega

/-- C2: for the min strategy, `on_idle` removes from the receiver table
exactly those records with `now_ns - time_of_last_status_message >
receiver_timeout_ns` (a record with `now_ns` exactly equal to
`time_of_last_status_message + receiver_timeout_ns` is retained), and
returns the minimum of `last_position_plus_window` over the surviving
records if at least one receiver remains, otherwise `snd_lmt` unchanged. -/
theorem min_on_idle_evicts_exactly_timed_out
    (state : MinState) (now_ns snd_lmt snd_pos : Int) (eos : Bool)
    (hb : ∀ r ∈ state.receivers, r.last_position_plus_window ≤ int64Max) :
    ∀ state' ret,
      aeron_min_flow_control_strategy_on_idle state now_ns snd_lmt snd_pos eos = (state', ret) →
      (∀ r : Receiver, r ∈ state'.receivers ↔
         (r ∈ state.receivers ∧
           ¬ (now_ns - r.time_of_last_status_message > state.receiver_timeout_ns))) ∧
      (∀ r ∈ state.receivers,
         now_ns = r.time_of_last_status_message + state.receiver_timeout_ns →
         r ∈ state'.receivers) ∧
      (state'.receivers ≠ [] →
        (∃ r ∈ state'.receivers, ret = r.last_position_plus_window) ∧
        ∀ r ∈ state'.receivers, ret ≤ r.last_position_plus_window) ∧
      (state'.receivers = [] → ret = snd_lmt) := by
  intro state' ret h
  unfold aeron_min_flow_control_strategy_on_idle at h
  obtain ⟨hst, hret⟩ := Prod.mk.injEq .. ▸ h
  have hrecv : state'.receivers =
      state.receivers.filter
        (fun r => !receiver_timed_out state.receiver_timeout_ns now_ns r) := by
    rw [← hst]
  have hbool : ∀ r : Receiver,
      ((!receiver_timed_out state.receiver_timeout_ns now_ns r) = true) ↔
        ¬ (now_ns - r.time_of_last_status_message > state.receiver_timeout_ns) := by
    intro r
    rw [Bool.not_eq_true', Bool.eq_false_iff, ne_eq, receiver_timed_out_iff]
  have hmem : ∀ r : Receiver, r ∈ state'.receivers ↔
      (r ∈ state.receivers ∧
        ¬ (now_ns - r.time_of_last_status_message > state.receiver_timeout_ns)) := by
    intro r
    rw [hrecv, List.mem_filter]
    exact and_congr_right (fun _ => hbool r)
  have hsplit : ret =
      if 0 < state'.receivers.length then min_fold state'.receivers else snd_lmt := by
    rw [hrecv]
    exact hret.symm
  refine ⟨hmem, ?_, ?_, ?_⟩
  · intro r hr he
    exact (hmem r).mpr ⟨hr, by omega⟩
  · intro hne
    rw [if_pos (List.length_pos.mpr hne)] at hsplit
    have hb' : ∀ r ∈ state'.receivers, r.last_position_plus_window ≤ int64Max := by
      intro r hr
      exact hb r ((hmem r).mp hr).1
    refine ⟨?_, ?_⟩
    · exact (min_fold_attained hne hb').imp (fun r hr => ⟨hr.1, hsplit.trans hr.2⟩)
    · intro r hr
      rw [hsplit]
      exact min_fold_le hr
  · intro hnil
    rw [if_neg (by rw [hnil]; exact lt_irrefl 0)] at hsplit
    exact hsplit

/-- Concrete receiver last heard at time 0. -/
def c2_r1 : Receiver :=
  { last_position := 50000, last_position_plus_window := 100000,
    time_of_last_status_message := 0, receiver_id := 1 }

/-- Concrete receiver last heard at 1.5s. -/
def c2_r2 : Receiver :=
  { last_position := 40000, last_position_plus_window := 80000,
    time_of_last_status_message := 1500000000, receiver_id := 2 }

/-- Concrete min state with one stale and one fresh receiver. -/
def c2_state : MinState :=
  { receivers := [c2_r1, c2_r2], receiver_timeout_ns := 1000000000 }

/-- Witness for C2: with a 1s timeout, `on_idle` at `now = 2s` evicts the
receiver last heard at 0 and keeps the one heard at 1.5s. -/
theorem min_on_idle_evicts_exactly_timed_out_witness :
    (∀ r : Receiver,
       r ∈ (aeron_min_flow_control_strategy_on_idle c2_state 2000000000 7 0 false).1.receivers ↔
         (r ∈ c2_state.receivers ∧
           ¬ (2000000000 - r.time_of_last_status_message > c2_state.receiver_timeout_ns))) ∧
    (∀ r ∈ c2_state.receivers,
       (2000000000 : Int) = r.time_of_last_status_message + c2_state.receiver_timeout_ns →
       r ∈ (aeron_min_flow_control_strategy_on_idle c2_state 2000000000 7 0 false).1.receivers) ∧
    ((aeron_min_flow_control_strategy_on_idle c2_state 2000000000 7 0 false).1.receivers ≠ [] →
      (∃ r ∈ (aeron_min_flow_control_strategy_on_idle c2_state 2000000000 7 0 false).1.receivers,
        (aeron_min_flow_control_strategy_on_idle c2_state 2000000000 7 0 false).2 =
          r.last_position_plus_window) ∧
      ∀ r ∈ (aeron_min_flow_control_strategy_on_idle c2_state 2000000000 7 0 false).1.receivers,
        (aeron_min_flow_control_strategy_on_idle c2_state 2000000000 7 0 false).2 ≤
          r.last_position_plus_window) ∧
    ((aeron_min_flow_control_strategy_on_idle c2_state 2000000000 7 0 false).1.receivers = [] →
      (aeron_min_flow_control_strategy_on_idle c2_state 2000000000 7 0 false).2 = 7) :=
  min_on_idle_evicts_exactly_timed_out c2_state 2000000000 7 0 false (by decide) _ _ rfl

/-- Evaluation of the tag test of the preferred strategy: the status message
counts as preferred exactly when the optional tag is present and equals the
configured tag. -/
theorem preferred_tag_test_false (state : PreferredState) (sm : StatusMessage)
    (h : sm.receiver_tag = none ∨
      ∃ t, sm.receiver_tag = some t ∧ t ≠ state.receiver_tag) :
    (match sm.receiver_tag with
      | some sm_receiver_tag => sm_receiver_tag == state.receiver_tag
      | none => false) = false := by
  rcases h with h | ⟨t, ht, hne⟩
  · rw [h]
  · rw [ht]
    exact beq_eq_false_iff_ne.mpr hne

/-- C3: for the preferred strategy, whenever the receiver table is empty and
the incoming status message is not from a preferred receiver (tag absent or
different from the configured `receiver_tag`), `on_status_message` returns
`max(snd_lmt, position + window)` and leaves the receiver table empty. -/
theorem preferred_bootstrap_acts_as_max
    (state : PreferredState) (sm : StatusMessage) (snd_lmt initial_term_id : Int)
    (position_bits_to_shift : Nat) (now_ns : Int) (cap : Bool)
    (h0 : state.min_flow_control_state.receivers.length = 0)
    (h1 : sm.receiver_tag = none ∨
      ∃ t, sm.receiver_tag = some t ∧ t ≠ state.receiver_tag) :
    aeron_preferred_flow_control_strategy_on_sm state sm snd_lmt initial_term_id
        position_bits_to_shift now_ns cap =
      (state, max snd_lmt
        (aeron_logbuffer_compute_position sm.consumption_term_id sm.consumption_term_offset
          position_bits_to_shift initial_term_id + sm.receiver_window)) ∧
    state.min_flow_control_state.receivers = [] := by
  refine ⟨?_, List.length_eq_zero.mp h0⟩
  unfold aeron_preferred_flow_control_strategy_on_sm
  rw [preferred_tag_test_false state sm h1]
  rw [if_pos (by simp [h0])]
  show (state,
      if snd_lmt >
          aeron_logbuffer_compute_position sm.consumption_term_id sm.consumption_term_offset
            position_bits_to_shift initial_term_id + sm.receiver_window
        then snd_lmt
        else aeron_logbuffer_compute_position sm.consumption_term_id sm.consumption_term_offset
          position_bits_to_shift initial_term_id + sm.receiver_window) = _
  rw [if_gt_eq_max]

/-- Concrete preferred state with tag 42 and a tracked preferred receiver
whose window edge is 1000. -/
def c4_state : PreferredState :=
  { min_flow_control_state :=
      { receivers :=
          [{ last_position := 0, last_position_plus_window := 1000,
             time_of_last_status_message := 0, receiver_id := 1 }],
        receiver_timeout_ns := 5000000000 },
    receiver_tag := 42 }

/-- Concrete non-preferred status message (tag 7, not the configured 42). -/
def c4_sm : StatusMessage :=
  { consumption_term_id := 0, consumption_term_offset := 0, receiver_window := 0,
    receiver_id := 2, receiver_tag := some 7 }

/-- C4 counterexample: with `snd_lmt = 0`, at least one tracked preferred
receiver (window edge 1000), and a non-preferred status message,
`on_status_message` returns 1000, not `snd_lmt` unchanged: the fall-through
call into the shared update routine still returns `max(snd_lmt,
min_position)` over the tracked receivers. -/
theorem preferred_non_preferred_sm_can_exceed_snd_lmt :
    (aeron_preferred_flow_control_strategy_on_sm c4_state c4_sm 0 0 0 0 true).2 = 1000 ∧
    (aeron_preferred_flow_control_strategy_on_sm c4_state c4_sm 0 0 0 0 true).2 ≠ 0 := by
  decide

/-- C4 amended: for the preferred strategy, whenever at least one preferred
receiver is tracked and the incoming status message is not from a preferred
receiver, `on_status_message` does not mutate the strategy state (no record
is updated or inserted), and returns `max(snd_lmt, minimum over tracked
receivers of last_position_plus_window)` — which may exceed `snd_lmt` —
rather than `snd_lmt` unchanged. -/
theorem preferred_non_preferred_sm_no_mutation
    (state : PreferredState) (sm : StatusMessage) (snd_lmt initial_term_id : Int)
    (position_bits_to_shift : Nat) (now_ns : Int) (cap : Bool)
    (h0 : state.min_flow_control_state.receivers ≠ [])
    (h1 : sm.receiver_tag = none ∨
      ∃ t, sm.receiver_tag = some t ∧ t ≠ state.receiver_tag)
    (hb : ∀ r ∈ state.min_flow_control_state.receivers,
      r.last_position_plus_window ≤ int64Max) :
    ∀ state' ret,
      aeron_preferred_flow_control_strategy_on_sm state sm snd_lmt initial_term_id
        position_bits_to_shift now_ns cap = (state', ret) →
      state' = state ∧
      ∃ m, (∃ r ∈ state.min_flow_control_state.receivers,
              r.last_position_plus_window = m) ∧
        (∀ r ∈ state.min_flow_control_state.receivers,
          m ≤ r.last_position_plus_window) ∧
        ret = max snd_lmt m := by
  intro state' ret h
  unfold aeron_preferred_flow_control_strategy_on_sm at h
  rw [preferred_tag_test_false state sm h1] at h
  rw [if_neg (by simp [List.length_eq_zero, h0])] at h
  unfold aeron_preferred_flow_control_apply_position_update at h
  simp only [apply_update_scan_fst, apply_update_scan_existing, apply_update_scan_min] at h
  simp only [Bool.false_and, Bool.not_false, if_false, Bool.false_eq_true] at h
  have hmap : state.min_flow_control_state.receivers.map
      (scan_update_one
        (aeron_logbuffer_compute_position sm.consumption_term_id sm.consumption_term_offset
          position_bits_to_shift initial_term_id)
        sm.receiver_window sm.receiver_id now_ns false) =
      state.min_flow_control_state.receivers := by
    rw [List.map_congr_left (fun r _ => scan_update_one_false _ _ _ _ r)]
    exact List.map_id' _
  rw [hmap] at h
  obtain ⟨hst, hret⟩ := Prod.mk.injEq .. ▸ h
  constructor
  · rw [← hst]
  · refine ⟨min_fold state.min_flow_control_state.receivers, ?_, ?_, ?_⟩
    · exact (min_fold_attained h0 hb).imp (fun r hr => ⟨hr.1, hr.2.symm⟩)
    · intro r hr
      exact min_fold_le hr
    · rw [← hret, if_gt_eq_max]

/-- Witness for the amended C4 at the concrete state and status message of
the counterexample. -/
theorem preferred_non_preferred_sm_no_mutation_witness :
    (aeron_preferred_flow_control_strategy_on_sm c4_state c4_sm 0 0 0 0 true).1 = c4_state ∧
    ∃ m, (∃ r ∈ c4_state.min_flow_control_state.receivers,
            r.last_position_plus_window = m) ∧
      (∀ r ∈ c4_state.min_flow_control_state.receivers, m ≤ r.last_position_plus_window) ∧
      (aeron_preferred_flow_control_strategy_on_sm c4_state c4_sm 0 0 0 0 true).2 = max 0 m :=
  preferred_non_preferred_sm_no_mutation c4_state c4_sm 0 0 0 0 true
    (by decide) (Or.inr ⟨7, rfl, by decide⟩) (by decide) _ _ rfl

/-- Witness for C3 at a concrete bootstrap state: empty table, tag 9 against
configured tag 42, position 4096 and window 65536 at shift 16. -/
theorem preferred_bootstrap_acts_as_max_witness :
    aeron_preferred_flow_control_strategy_on_sm
        { min_flow_control_state := c1_state, receiver_tag := 42 }
        { consumption_term_id := 0, consumption_term_offset := 4096, receiver_window := 65536,
          receiver_id := 3, receiver_tag := some 9 } 0 0 16 0 true =
      ({ min_flow_control_state := c1_state, receiver_tag := 42 }, max 0
        (aeron_logbuffer_compute_position 0 4096 16 0 + 65536)) ∧
    ({ min_flow_control_state := c1_state, receiver_tag := 42 } :
        PreferredState).min_flow_control_state.receivers = [] :=
  preferred_bootstrap_acts_as_max
    { min_flow_control_state := c1_state, receiver_tag := 42 }
    { consumption_term_id := 0, consumption_term_offset := 4096, receiver_window := 65536,
      receiver_id := 3, receiver_tag := some 9 } 0 0 16 0 true
    (by decide) (Or.inr ⟨9, rfl, by decide⟩)

/-- C6: for the max strategy, every `on_idle` call returns `snd_lmt`
unchanged, and `on_status_message` returns exactly `max(snd_lmt, position +
receiver_window)` with `position = compute_position(consumption_term_id,
consumption_term_offset, position_bits_to_shift, initial_term_id)`; in
particular the returned value is always at least `snd_lmt`. -/
theorem max_strategy_on_idle_and_on_sm
    (sm : StatusMessage) (snd_lmt snd_pos initial_term_id : Int)
    (position_bits_to_shift : Nat) (now_ns : Int) (eos : Bool) :
    aeron_max_flow_control_strategy_on_idle now_ns snd_lmt snd_pos eos = snd_lmt ∧
    aeron_max_flow_control_strategy_on_sm sm snd_lmt initial_term_id
        position_bits_to_shift now_ns =
      max snd_lmt
        (aeron_logbuffer_compute_position sm.consumption_term_id sm.consumption_term_offset
          position_bits_to_shift initial_term_id + sm.receiver_window) ∧
    snd_lmt ≤ aeron_max_flow_control_strategy_on_sm sm snd_lmt initial_term_id
      position_bits_to_shift now_ns := by
  have hsm : aeron_max_flow_control_strategy_on_sm sm snd_lmt initial_term_id
      position_bits_to_shift now_ns =
      max snd_lmt
        (aeron_logbuffer_compute_position sm.consumption_term_id sm.consumption_term_offset
          position_bits_to_shift initial_term_id + sm.receiver_window) := by
    unfold aeron_max_flow_control_strategy_on_sm
    exact if_gt_eq_max _ _
  exact ⟨rfl, hsm, hsm ▸ le_max_left _ _⟩

/-- Invariant used for C7: some tracked record has the given id, and every
record with that id carries exactly the accumulated `last_position` and the
latest `last_position_plus_window`. -/
def tracked_exactly (state : MinState) (receiver_id acc lw : Int) : Prop :=
  (∃ r ∈ state.receivers, r.receiver_id = receiver_id) ∧
  (∀ r ∈ state.receivers, r.receiver_id = receiver_id →
     r.last_position = acc ∧ r.last_position_plus_window = lw)

theorem apply_update_keeps_entries (st : MinState) (p w id snd now : Int) (cap : Bool)
    (r : Receiver) (hr : r ∈ st.receivers) :
    scan_update_one p w id now true r ∈
      (aeron_preferred_flow_control_apply_position_update st p w id snd now true cap).1.receivers := by
  unfold aeron_preferred_flow_control_apply_position_update
  simp only [apply_update_scan_fst, apply_update_scan_existing, apply_update_scan_min]
  by_cases hex : st.receivers.any (fun r => true && (id == r.receiver_id)) = true
  · rw [hex]
    simp only [Bool.not_true, Bool.and_false, Bool.false_eq_true, if_false]
    exact List.mem_map_of_mem _ hr
  · rw [Bool.not_eq_true] at hex
    rw [hex]
    simp only [Bool.not_false, Bool.and_true, if_true]
    cases cap
    · simp only [Bool.false_eq_true, if_false]
      exact List.mem_map_of_mem _ hr
    · simp only [if_true]
      exact List.mem_append_left _ (List.mem_map_of_mem _ hr)

theorem apply_update_step_tracked (st : MinState) (p w id snd now acc lw : Int)
    (h : tracked_exactly st id acc lw) :
    tracked_exactly
      (aeron_preferred_flow_control_apply_position_update st p w id snd now true true).1
      id (max acc p) (p + w) := by
  obtain ⟨⟨r0, hr0, hid0⟩, hall⟩ := h
  have hex : st.receivers.any (fun r => true && (id == r.receiver_id)) = true := by
    simp only [List.any_eq_true, Bool.true_and, beq_iff_eq]
    exact ⟨r0, hr0, hid0.symm⟩
  unfold aeron_preferred_flow_control_apply_position_update
  simp only [apply_update_scan_fst, apply_update_scan_existing, apply_update_scan_min, hex,
    Bool.not_true, Bool.and_false, Bool.false_eq_true, if_false]
  constructor
  · refine ⟨scan_update_one p w id now true r0, List.mem_map_of_mem _ hr0, ?_⟩
    rw [scan_update_one_receiver_id]
    exact hid0
  · intro r' hr' hid'
    obtain ⟨r1, hr1, he⟩ := List.mem_map.mp hr'
    have hid1 : r1.receiver_id = id := by
      rw [← he, scan_update_one_receiver_id] at hid'
      exact hid'
    obtain ⟨hlp, _⟩ := hall r1 hr1 hid1
    rw [← he, scan_update_one_hit p w id now r1 hid1]
    constructor
    · show (if p > r1.last_position then p else r1.last_position) = max acc p
      rw [hlp, if_gt_eq_max, max_comm]
    · rfl

theorem apply_update_insert_tracked (st : MinState) (p w id snd now : Int)
    (h : ∀ r ∈ st.receivers, r.receiver_id ≠ id) :
    tracked_exactly
      (aeron_preferred_flow_control_apply_position_update st p w id snd now true true).1
      id p (p + w) := by
  have hex : st.receivers.any (fun r => true && (id == r.receiver_id)) = false := by
    rw [Bool.eq_false_iff, ne_eq, List.any_eq_true]
    rintro ⟨r, hr, he⟩
    simp only [Bool.true_and, beq_iff_eq] at he
    exact h r hr he.symm
  unfold aeron_preferred_flow_control_apply_position_update
  simp only [apply_update_scan_fst, apply_update_scan_existing, apply_update_scan_min, hex,
    Bool.not_false, Bool.and_true, if_true]
  constructor
  · exact ⟨{ last_position := p, last_position_plus_window := p + w,
             time_of_last_status_message := now, receiver_id := id },
      List.mem_append_right _ (List.mem_singleton.mpr rfl), rfl⟩
  · intro r' hr' hid'
    rcases List.mem_append.mp hr' with hr' | hr'
    · obtain ⟨r1, hr1, he⟩ := List.mem_map.mp hr'
      exfalso
      apply h r1 hr1
      rw [← he, scan_update_one_receiver_id] at hid'
      exact hid'
    · rw [List.mem_singleton.mp hr']
      exact ⟨rfl, rfl⟩

theorem run_min_sm_updates_cons (st : MinState) (id snd : Int) (u : Int × Int × Int)
    (us : List (Int × Int × Int)) :
    run_min_sm_updates st id snd (u :: us) =
      run_min_sm_updates
        (aeron_preferred_flow_control_apply_position_update st u.1 u.2.1 id snd u.2.2
          true true).1
        id snd us := rfl

theorem run_min_sm_updates_tracked (id snd : Int) (us : List (Int × Int × Int)) :
    ∀ (st : MinState) (acc lw : Int), tracked_exactly st id acc lw →
      tracked_exactly (run_min_sm_updates st id snd us) id
        ((us.map Prod.fst).foldl max acc)
        (us.foldl (fun a u => u.1 + u.2.1) lw) := by
  induction us with
  | nil => intro st acc lw h; exact h
  | cons u us ih =>
    intro st acc lw h
    rw [run_min_sm_updates_cons]
    exact ih _ (max acc u.1) (u.1 + u.2.1)
      (apply_update_step_tracked st u.1 u.2.1 id snd u.2.2 acc lw h)

theorem foldl_last_edge (us : List (Int × Int × Int)) :
    ∀ u : Int × Int × Int,
      us.foldl (fun a v => v.1 + v.2.1) (u.1 + u.2.1) =
        (us.getLastD u).1 + (us.getLastD u).2.1 := by
  induction us with
  | nil => intro u; rfl
  | cons v vs ih =>
    intro u
    rw [List.getLastD_cons]
    exact ih v

theorem foldl_max_spec (l : List Int) : ∀ a : Int,
    a ≤ l.foldl max a ∧ (∀ x ∈ l, x ≤ l.foldl max a) ∧
      (l.foldl max a = a ∨ l.foldl max a ∈ l) := by
  induction l with
  | nil => intro a; exact ⟨le_refl a, by simp, Or.inl rfl⟩
  | cons x l ih =>
    intro a
    obtain ⟨h1, h2, h3⟩ := ih (max a x)
    refine ⟨le_trans (le_max_left a x) h1, ?_, ?_⟩
    · intro y hy
      rcases List.mem_cons.mp hy with rfl | hy
      · exact le_trans (le_max_right a y) h1
      · exact h2 y hy
    · rcases h3 with h | h
      · rcases max_choice a x with hc | hc
        · exact Or.inl (h.trans hc)
        · refine Or.inr ?_
          show List.foldl max (max a x) l ∈ x :: l
          rw [h, hc]
          exact List.mem_cons_self x l
      · exact Or.inr (List.mem_cons_of_mem x h)

/-- C7: for every `receiver_id` tracked by the min or preferred strategy
(both go through the shared update routine), the stored `last_position`
never decreases across accepted status messages, and after a sequence of
accepted status messages from a previously untracked receiver with positions
`p1, p2, ...` it equals the maximum of the initial position `p1` and all
subsequent accepted positions, while `last_position_plus_window` is
overwritten unconditionally with `position + window` of the last accepted
status message (and so may decrease). -/
theorem receiver_last_position_monotone_and_is_max :
    (∀ (state : MinState) (position window_length receiver_id snd_lmt now_ns : Int)
       (cap : Bool) (r : Receiver), r ∈ state.receivers →
       ∃ r' ∈ (aeron_preferred_flow_control_apply_position_update state position window_length
           receiver_id snd_lmt now_ns true cap).1.receivers,
         r'.receiver_id = r.receiver_id ∧
         r.last_position ≤ r'.last_position ∧
         (r.receiver_id = receiver_id →
           r'.last_position = max r.last_position position ∧
           r'.last_position_plus_window = position + window_length)) ∧
    (∀ (state : MinState) (receiver_id snd_lmt : Int) (u : Int × Int × Int)
       (us : List (Int × Int × Int)),
       (∀ r ∈ state.receivers, r.receiver_id ≠ receiver_id) →
       ∃ r' ∈ (run_min_sm_updates state receiver_id snd_lmt (u :: us)).receivers,
         r'.receiver_id = receiver_id ∧
         (r'.last_position = u.1 ∨ r'.last_position ∈ us.map Prod.fst) ∧
         u.1 ≤ r'.last_position ∧
         (∀ p ∈ us.map Prod.fst, p ≤ r'.last_position) ∧
         r'.last_position_plus_window = (us.getLastD u).1 + (us.getLastD u).2.1) := by
  constructor
  · intro state p w id snd now cap r hr
    refine ⟨scan_update_one p w id now true r,
      apply_update_keeps_entries state p w id snd now cap r hr,
      scan_update_one_receiver_id p w id now true r,
      scan_update_one_last_position p w id now true r, ?_⟩
    intro hid
    rw [scan_update_one_hit p w id now r hid]
    constructor
    · show (if p > r.last_position then p else r.last_position) = max r.last_position p
      rw [if_gt_eq_max, max_comm]
    · rfl
  · intro state id snd u us h
    have h1 := run_min_sm_updates_tracked id snd us _ u.1 (u.1 + u.2.1)
      (apply_update_insert_tracked state u.1 u.2.1 id snd u.2.2 h)
    rw [← run_min_sm_updates_cons] at h1
    obtain ⟨⟨r', hr', hid'⟩, hall⟩ := h1
    obtain ⟨hlp, hlw⟩ := hall r' hr' hid'
    obtain ⟨ha, hb, hc⟩ := foldl_max_spec (us.map Prod.fst) u.1
    refine ⟨r', hr', hid', ?_, ?_, ?_, ?_⟩
    · rw [hlp]; exact hc
    · rw [hlp]; exact ha
    · intro p hp; rw [hlp]; exact hb p hp
    · rw [hlw]; exact foldl_last_edge us u

/-- Witness for C7: the step part applied to the tracked receiver `c2_r1`
(id 1) with an accepted position 60000 and window 1000, and the sequence
part applied to an initially empty table with two accepted updates from
receiver 5. -/
theorem receiver_last_position_monotone_and_is_max_witness :
    (∃ r' ∈ (aeron_preferred_flow_control_apply_position_update c2_state 60000 1000 1 0 5
        true true).1.receivers,
       r'.receiver_id = c2_r1.receiver_id ∧
       c2_r1.last_position ≤ r'.last_position ∧
       (c2_r1.receiver_id = 1 →
         r'.last_position = max c2_r1.last_position 60000 ∧
         r'.last_position_plus_window = 60000 + 1000)) ∧
    (∃ r' ∈ (run_min_sm_updates c1_state 5 0
        (((10 : Int), (20 : Int), (30 : Int)) :: [((7 : Int), (5 : Int), (40 : Int))])).receivers,
       r'.receiver_id = 5 ∧
       (r'.last_position = ((10 : Int), (20 : Int), (30 : Int)).1 ∨
         r'.last_position ∈ [((7 : Int), (5 : Int), (40 : Int))].map Prod.fst) ∧
       ((10 : Int), (20 : Int), (30 : Int)).1 ≤ r'.last_position ∧
       (∀ p ∈ [((7 : Int), (5 : Int), (40 : Int))].map Prod.fst, p ≤ r'.last_position) ∧
       r'.last_position_plus_window =
         ([((7 : Int), (5 : Int), (40 : Int))].getLastD ((10 : Int), (20 : Int), (30 : Int))).1 +
           ([((7 : Int), (5 : Int), (40 : Int))].getLastD ((10 : Int), (20 : Int), (30 : Int))).2.1) :=
  ⟨receiver_last_position_monotone_and_is_max.1 c2_state 60000 1000 1 0 5 true c2_r1 (by decide),
   receiver_last_position_monotone_and_is_max.2 c1_state 5 0 (10, 20, 30)
     [(7, 5, 40)] (by decide)⟩

/-- String comparison of the registry lookup read as list prefix: the
`strncmp` over the entry name's length succeeds exactly when the entry name
is a prefix of the query. -/
theorem strncmp_name_iff (a b : List Char) : strncmp_name a b = true ↔ a <+: b := by
  induction a generalizing b with
  | nil => simp [strncmp_name]
  | cons x as ih =>
    cases b with
    | nil =>
      simp only [strncmp_name, Bool.false_eq_true, false_iff]
      intro hpre
      cases List.eq_nil_of_prefix_nil hpre
    | cons y bs =>
      simp only [strncmp_name, Bool.and_eq_true, beq_iff_eq, ih, List.cons_prefix_cons]

/-- C10: the registry lookup returns a supplier by prefix match, not exact
match: a query beginning with a canonical registry name (first such entry in
table order) returns that entry's supplier even with trailing characters,
and `NULL` (`none`) is returned only when no canonical name is a prefix of
the query. -/
theorem supplier_by_name_is_prefix_match (q : List Char) :
    aeron_flow_control_strategy_supplier_by_name q =
      (if AERON_UNICAST_MAX_FLOW_CONTROL_STRATEGY_NAME <+: q then some SupplierFunc.unicastMax
       else if AERON_MULTICAST_MAX_FLOW_CONTROL_STRATEGY_NAME <+: q then
         some SupplierFunc.multicastMax
       else if AERON_MULTICAST_MIN_FLOW_CONTROL_STRATEGY_NAME <+: q then
         some SupplierFunc.multicastMin
       else none) := by
  unfold aeron_flow_control_strategy_supplier_by_name
    aeron_flow_control_strategy_supplier_table
  rw [fc_supplier_lookup, fc_supplier_lookup, fc_supplier_lookup, fc_supplier_lookup]
  by_cases h1 : AERON_UNICAST_MAX_FLOW_CONTROL_STRATEGY_NAME <+: q
  · rw [if_pos ((strncmp_name_iff _ _).mpr h1), if_pos h1]
  · rw [if_neg (fun hc => h1 ((strncmp_name_iff _ _).mp hc)), if_neg h1]
    by_cases h2 : AERON_MULTICAST_MAX_FLOW_CONTROL_STRATEGY_NAME <+: q
    · rw [if_pos ((strncmp_name_iff _ _).mpr h2), if_pos h2]
    · rw [if_neg (fun hc => h2 ((strncmp_name_iff _ _).mp hc)), if_neg h2]
      by_cases h3 : AERON_MULTICAST_MIN_FLOW_CONTROL_STRATEGY_NAME <+: q
      · rw [if_pos ((strncmp_name_iff _ _).mpr h3), if_pos h3]
      · rw [if_neg (fun hc => h3 ((strncmp_name_iff _ _).mp hc)), if_neg h3]

theorem fc_process_option_none (pdur : List Char → Option Nat)
    (pint : List Char → Option Int) (options : List Char) (opts : FcOptions)
    (buf tok : List Char) (h0 : opts.strategy_name = none) :
    fc_process_option pdur pint options opts buf tok =
      .ok ({ opts with strategy_name := some tok }, buf) := by
  unfold fc_process_option
  rw [if_pos h0]

theorem fc_process_option_keeps_name (pdur : List Char → Option Nat)
    (pint : List Char → Option Int) (options : List Char) (opts : FcOptions)
    (buf tok : List Char) (nm : List Char) (s2 : FcOptions × List Char)
    (h0 : opts.strategy_name = some nm)
    (h : fc_process_option pdur pint options opts buf tok = .ok s2) :
    s2.1.strategy_name = some nm := by
  unfold fc_process_option at h
  rw [if_neg (by rw [h0]; exact Option.noConfusion)] at h
  dsimp only at h
  repeat' split at h
  all_goals
    first
      | exact Except.noConfusion h
      | (injection h with h; rw [← h]; exact h0)

theorem fc_process_option_bad_token (pdur : List Char → Option Nat)
    (pint : List Char → Option Int) (options : List Char) (opts : FcOptions)
    (buf tok : List Char) (nm : List Char)
    (h0 : opts.strategy_name = some nm)
    (h1 : ¬ (['t', ':'] <+: tok)) (h2 : ¬ (['g', ':'] <+: tok)) :
    ∃ e, fc_process_option pdur pint options opts buf tok = .error e := by
  have hguard : ¬ (2 < tok.length ∧
      (tok.getD 0 nulChar = 'g' ∨ tok.getD 0 nulChar = 't') ∧
      tok.getD 1 nulChar = ':') := by
    rintro ⟨hl, hc0, hc1⟩
    match tok, hl with
    | c0 :: c1 :: c2 :: rest, _ =>
      simp only [List.getD, List.getElem?_cons_zero, Option.getD_some] at hc0
      simp only [List.getD, List.getElem?_cons_succ, List.getElem?_cons_zero,
        Option.getD_some] at hc1
      subst hc1
      rcases hc0 with hc0 | hc0
      · subst hc0
        exact h2 ⟨c2 :: rest, rfl⟩
      · subst hc0
        exact h1 ⟨c2 :: rest, rfl⟩
  unfold fc_process_option
  rw [if_neg (by rw [h0]; exact Option.noConfusion)]
  split
  · next hcond =>
    exfalso
    simp only [Bool.and_eq_true, decide_eq_true_eq, Bool.or_eq_true, beq_iff_eq] at hcond
    exact hguard ⟨hcond.1.1, hcond.1.2, hcond.2⟩
  · exact ⟨_, rfl⟩

theorem fc_parse_loop_keeps_name (pdur : List Char → Option Nat)
    (pint : List Char → Option Int) (options : List Char)
    (toks : List (List Char)) :
    ∀ (opts : FcOptions) (buf : List Char) (nm : List Char) (res : FcOptions),
      opts.strategy_name = some nm →
      fc_parse_loop pdur pint options opts buf toks = .ok res →
      res.strategy_name = some nm := by
  induction toks with
  | nil =>
    intro opts buf nm res h0 h
    injection h with h
    rw [← h]
    exact h0
  | cons tok toks ih =>
    intro opts buf nm res h0 h
    unfold fc_parse_loop at h
    cases hp : fc_process_option pdur pint options opts buf tok with
    | error e => rw [hp] at h; exact Except.noConfusion h
    | ok s2 =>
      rw [hp] at h
      exact ih s2.1 s2.2 nm res
        (fc_process_option_keeps_name pdur pint options opts buf tok nm s2 h0 hp) h

theorem fc_parse_loop_bad_token (pdur : List Char → Option Nat)
    (pint : List Char → Option Int) (options : List Char)
    (toks : List (List Char)) :
    ∀ (opts : FcOptions) (buf : List Char) (nm : List Char),
      opts.strategy_name = some nm →
      (∃ tok ∈ toks, ¬ (['t', ':'] <+: tok) ∧ ¬ (['g', ':'] <+: tok)) →
      ∃ e, fc_parse_loop pdur pint options opts buf toks = .error e := by
  induction toks with
  | nil =>
    rintro opts buf nm h0 ⟨tok, htok, -⟩
    cases htok
  | cons t ts ih =>
    rintro opts buf nm h0 ⟨tok, htok, hb1, hb2⟩
    unfold fc_parse_loop
    rcases List.mem_cons.mp htok with rfl | htok
    · obtain ⟨e, he⟩ := fc_process_option_bad_token pdur pint options opts buf tok nm h0 hb1 hb2
      rw [he]
      exact ⟨e, rfl⟩
    · cases hp : fc_process_option pdur pint options opts buf t with
      | error e =>
        exact ⟨e, rfl⟩
      | ok s2 =>
        exact ih s2.1 s2.2 nm
          (fc_process_option_keeps_name pdur pint options opts buf t nm s2 h0 hp)
          ⟨tok, htok, hb1, hb2⟩

theorem fcTokenizeGo_head (s : List Char) :
    ∀ cur : List Char, ∃ ts, fcTokenizeGo cur s =
      (cur.reverse ++ s.takeWhile (fun c => c ≠ ',')) :: ts := by
  induction s with
  | nil => intro cur; exact ⟨[], by simp [fcTokenizeGo]⟩
  | cons c s ih =>
    intro cur
    by_cases hc : c = ','
    · subst hc
      cases s with
      | nil => exact ⟨[], by simp [fcTokenizeGo]⟩
      | cons d s' =>
        refine ⟨fcTokenizeGo [] (d :: s'), ?_⟩
        simp [fcTokenizeGo]
    · obtain ⟨ts, hts⟩ := ih (c :: cur)
      refine ⟨ts, ?_⟩
      simp only [fcTokenizeGo, if_neg hc, hts]
      simp [hc]

theorem fcTokenize_head (s : List Char) :
    ∃ ts, fcTokenize s = s.takeWhile (fun c => c ≠ ',') :: ts := by
  obtain ⟨ts, hts⟩ := fcTokenizeGo_head s []
  exact ⟨ts, by simpa [fcTokenize] using hts⟩

/-- C9: for every options string given to the `fc` options parser, the first
comma-separated token becomes `strategy_name`, and every subsequent token
not beginning with the prefix `t:` or `g:` causes the parse to fail with
`InvalidArgument`; in particular no options string containing such a token
parses successfully.  `pdur` and `pint` are the external numeric parsers. -/
theorem parse_options_first_token_and_unknown_prefix_fails
    (pdur : List Char → Option Nat) (pint : List Char → Option Int) (s : List Char) :
    (∀ opts, aeron_flow_control_parse_preferred_options pdur pint s = .ok opts →
       opts.strategy_name = some (s.takeWhile (fun c => c ≠ ','))) ∧
    (∀ i, 0 < i → ∀ hi : i < (fcTokenize s).length,
       ¬ (['t', ':'] <+: (fcTokenize s).get ⟨i, hi⟩) →
       ¬ (['g', ':'] <+: (fcTokenize s).get ⟨i, hi⟩) →
       ∃ e, aeron_flow_control_parse_preferred_options pdur pint s = .error e) := by
  obtain ⟨ts, hts⟩ := fcTokenize_head s
  have hred : aeron_flow_control_parse_preferred_options pdur pint s =
      fc_parse_loop pdur pint s
        { strategy_name := some (s.takeWhile (fun c => c ≠ ',')), timeout_ns := 0,
          has_receiver_tag := false, receiver_tag := -1 }
        (List.replicate AERON_FLOW_CONTROL_NUMBER_BUFFER_LEN nulChar) ts := by
    unfold aeron_flow_control_parse_preferred_options
    rw [hts]
    rfl
  constructor
  · intro opts h
    rw [hred] at h
    exact fc_parse_loop_keeps_name pdur pint s ts _ _ _ opts rfl h
  · intro i hi0 hi hb1 hb2
    rw [hred]
    refine fc_parse_loop_bad_token pdur pint s ts _ _ _ rfl
      ⟨(fcTokenize s).get ⟨i, hi⟩, ?_, hb1, hb2⟩
    cases i with
    | zero => exact absurd hi0 (lt_irrefl 0)
    | succ j =>
      have hlen : j < ts.length := by
        have hj := hi
        rw [hts] at hj
        simpa using hj
      have hget : (fcTokenize s).get ⟨j + 1, hi⟩ = ts.get ⟨j, hlen⟩ := by
        rw [List.get_of_eq hts ⟨j + 1, hi⟩]
        rfl
      rw [hget]
      exact List.get_mem _ _ _

/-- Numeric probe accepting every duration, used only to instantiate
theorems at concrete inputs. -/
def probe_dur : List Char → Option Nat := fun _ => some 5000000000

/-- Numeric probe accepting every integer as tag 1, used only to
instantiate theorems at concrete inputs. -/
def probe_int : List Char → Option Int := fun _ => some 1

/-- Witness for C9: on `"max"` the first token becomes the strategy name;
on `"min,x"` the unknown-prefix token `x` fails the parse. -/
theorem parse_options_first_token_and_unknown_prefix_fails_witness :
    ({ strategy_name := some ['m', 'a', 'x'], timeout_ns := 0, has_receiver_tag := false,
       receiver_tag := -1 } : FcOptions).strategy_name =
        some (['m', 'a', 'x'].takeWhile (fun c => c ≠ ',')) ∧
    ∃ e, aeron_flow_control_parse_preferred_options probe_dur probe_int
      ['m', 'i', 'n', ',', 'x'] = .error e :=
  ⟨(parse_options_first_token_and_unknown_prefix_fails probe_dur probe_int
      ['m', 'a', 'x']).1
      { strategy_name := some ['m', 'a', 'x'], timeout_ns := 0, has_receiver_tag := false,
        receiver_tag := -1 } rfl,
   (parse_options_first_token_and_unknown_prefix_fails probe_dur probe_int
      ['m', 'i', 'n', ',', 'x']).2 1 (by decide) (by decide) (by decide) (by decide)⟩

theorem default_supplier_some_ok
    (pdur : List Char → Option Nat) (pint : List Char → Option Int)
    (min_env preferred_env : Int) (s : List Char) (opts : FcOptions)
    (hp : aeron_flow_control_parse_preferred_options pdur pint s = .ok opts) :
    aeron_default_multicast_flow_control_strategy_supplier pdur pint min_env preferred_env
        (some s) =
      (if opts.strategy_name_length = 0 ∨ opts.strategy_name = none then
        ConstructedStrategy.invalidArgument
      else if opts.strategy_name = some ['m', 'a', 'x'] then ConstructedStrategy.maxStrategy
      else if opts.strategy_name = some ['m', 'i', 'n'] then
        if opts.has_receiver_tag then
          match aeron_preferred_flow_control_strategy_supplier pdur pint preferred_env s with
          | some st => ConstructedStrategy.preferredStrategy st
          | none => ConstructedStrategy.invalidArgument
        else ConstructedStrategy.minStrategy (aeron_min_flow_control_strategy_supplier min_env)
      else ConstructedStrategy.invalidArgument) := by
  show fc_selector_with_options pdur pint min_env preferred_env s = _
  unfold fc_selector_with_options
  rw [hp]

theorem preferred_supplier_ok
    (pdur : List Char → Option Nat) (pint : List Char → Option Int)
    (preferred_env : Int) (s : List Char) (opts : FcOptions)
    (hp : aeron_flow_control_parse_preferred_options pdur pint s = .ok opts) :
    aeron_preferred_flow_control_strategy_supplier pdur pint preferred_env s =
      some { min_flow_control_state :=
               { receivers := [],
                 receiver_timeout_ns :=
                   if opts.timeout_ns ≠ 0 then (opts.timeout_ns : Int) else preferred_env },
             receiver_tag := opts.receiver_tag } := by
  unfold aeron_preferred_flow_control_strategy_supplier
  rw [hp]

/-- C8: the default multicast strategy selector delegates to the fallback
supplier when the `fc` URI parameter is absent; with a parsed strategy name
`max` it constructs the max strategy; with `min` it constructs the preferred
strategy exactly when `has_receiver_tag` is set and the min strategy
otherwise; an empty or unknown strategy name (and a failed parse) yields
`InvalidArgument` without constructing a strategy. -/
theorem default_supplier_selection
    (pdur : List Char → Option Nat) (pint : List Char → Option Int)
    (min_env preferred_env : Int) (fc_param : Option (List Char)) :
    (fc_param = none →
      aeron_default_multicast_flow_control_strategy_supplier pdur pint min_env preferred_env
        fc_param = .fallback) ∧
    (∀ s opts, fc_param = some s →
      aeron_flow_control_parse_preferred_options pdur pint s = .ok opts →
      (opts.strategy_name = some ['m', 'a', 'x'] →
        aeron_default_multicast_flow_control_strategy_supplier pdur pint min_env preferred_env
          fc_param = .maxStrategy) ∧
      (opts.strategy_name = some ['m', 'i', 'n'] →
        (opts.has_receiver_tag = true →
          ∃ ps, aeron_default_multicast_flow_control_strategy_supplier pdur pint min_env
            preferred_env fc_param = .preferredStrategy ps) ∧
        (opts.has_receiver_tag = false →
          aeron_default_multicast_flow_control_strategy_supplier pdur pint min_env
              preferred_env fc_param =
            .minStrategy (aeron_min_flow_control_strategy_supplier min_env))) ∧
      (∀ nm, opts.strategy_name = some nm → nm ≠ ['m', 'a', 'x'] → nm ≠ ['m', 'i', 'n'] →
        aeron_default_multicast_flow_control_strategy_supplier pdur pint min_env preferred_env
          fc_param = .invalidArgument)) ∧
    (∀ s, fc_param = some s →
      (∃ e, aeron_flow_control_parse_preferred_options pdur pint s = .error e) →
      aeron_default_multicast_flow_control_strategy_supplier pdur pint min_env preferred_env
        fc_param = .invalidArgument) := by
  refine ⟨?_, ?_, ?_⟩
  · intro h
    subst h
    rfl
  · intro s opts hs hp
    subst hs
    rw [default_supplier_some_ok pdur pint min_env preferred_env s opts hp]
    refine ⟨?_, ?_, ?_⟩
    · intro hnm
      rw [hnm]
      rw [if_neg (by simp [FcOptions.strategy_name_length, hnm])]
      rw [if_pos rfl]
    · intro hnm
      rw [hnm]
      rw [if_neg (by simp [FcOptions.strategy_name_length, hnm])]
      rw [if_neg (by simp), if_pos rfl]
      constructor
      · intro htag
        rw [htag, if_pos rfl]
        rw [preferred_supplier_ok pdur pint preferred_env s opts hp]
        exact ⟨_, rfl⟩
      · intro htag
        rw [htag]
        rw [if_neg Bool.false_ne_true]
    · intro nm hnm hne1 hne2
      rw [hnm]
      by_cases hl : nm.length = 0
      · rw [if_pos (Or.inl (by simp [FcOptions.strategy_name_length, hnm, hl]))]
      · rw [if_neg (by simp [FcOptions.strategy_name_length, hnm, hl])]
        rw [if_neg (by simp [hne1]), if_neg (by simp [hne2])]
  · rintro s hs ⟨e, he⟩
    subst hs
    show fc_selector_with_options pdur pint min_env preferred_env s = _
    unfold fc_selector_with_options
    rw [he]

/-- Witness for C8: the selector applied under the probe parsers maps `fc`
absent to fallback, `"max"` to the max strategy, `"min,g:1"` to the
preferred strategy, `"min"` to the min strategy, and `"bogus"` to
`InvalidArgument`. -/
theorem default_supplier_selection_witness :
    aeron_default_multicast_flow_control_strategy_supplier probe_dur probe_int 999 777
      none = .fallback ∧
    aeron_default_multicast_flow_control_strategy_supplier probe_dur probe_int 999 777
      (some ['m', 'a', 'x']) = .maxStrategy ∧
    (∃ ps, aeron_default_multicast_flow_control_strategy_supplier probe_dur probe_int 999 777
      (some ['m', 'i', 'n', ',', 'g', ':', '1']) = .preferredStrategy ps) ∧
    aeron_default_multicast_flow_control_strategy_supplier probe_dur probe_int 999 777
      (some ['m', 'i', 'n']) =
        .minStrategy (aeron_min_flow_control_strategy_supplier 999) ∧
    aeron_default_multicast_flow_control_strategy_supplier probe_dur probe_int 999 777
      (some ['b', 'o', 'g', 'u', 's']) = .invalidArgument :=
  ⟨(default_supplier_selection probe_dur probe_int 999 777 none).1 rfl,
   ((default_supplier_selection probe_dur probe_int 999 777 (some ['m', 'a', 'x'])).2.1
      ['m', 'a', 'x']
      { strategy_name := some ['m', 'a', 'x'], timeout_ns := 0, has_receiver_tag := false,
        receiver_tag := -1 } rfl rfl).1 (by decide),
   (((default_supplier_selection probe_dur probe_int 999 777
        (some ['m', 'i', 'n', ',', 'g', ':', '1'])).2.1
      ['m', 'i', 'n', ',', 'g', ':', '1']
      { strategy_name := some ['m', 'i', 'n'], timeout_ns := 0, has_receiver_tag := true,
        receiver_tag := 1 } rfl rfl).2.1 (by decide)).1 (by decide),
   (((default_supplier_selection probe_dur probe_int 999 777 (some ['m', 'i', 'n'])).2.1
      ['m', 'i', 'n']
      { strategy_name := some ['m', 'i', 'n'], timeout_ns := 0, has_receiver_tag := false,
        receiver_tag := -1 } rfl rfl).2.1 (by decide)).2 (by decide),
   ((default_supplier_selection probe_dur probe_int 999 777
        (some ['b', 'o', 'g', 'u', 's'])).2.1
      ['b', 'o', 'g', 'u', 's']
      { strategy_name := some ['b', 'o', 'g', 'u', 's'], timeout_ns := 0,
        has_receiver_tag := false, receiver_tag := -1 } rfl rfl).2.2
      ['b', 'o', 'g', 'u', 's'] (by decide) (by decide) (by decide)⟩

/-- C5 counterexample: with `fc = "min,t:5s"` whose `t:` option parses to
the nonzero timeout 5000000000 ns, the selector still constructs the min
strategy with the environment-derived default (999 here), not the
URI-supplied timeout: `aeron_min_flow_control_strategy_supplier` never
consults the parsed options. -/
theorem min_supplier_ignores_uri_timeout :
    aeron_flow_control_parse_preferred_options probe_dur probe_int
        ['m', 'i', 'n', ',', 't', ':', '5', 's'] =
      .ok { strategy_name := some ['m', 'i', 'n'], timeout_ns := 5000000000,
            has_receiver_tag := false, receiver_tag := -1 } ∧
    (5000000000 : Nat) ≠ 0 ∧
    aeron_default_multicast_flow_control_strategy_supplier probe_dur probe_int 999 777
        (some ['m', 'i', 'n', ',', 't', ':', '5', 's']) =
      .minStrategy { receivers := [], receiver_timeout_ns := 999 } ∧
    (999 : Int) ≠ 5000000000 :=
  ⟨rfl, by decide, rfl, by decide⟩

/-- C5 amended: whenever the selector constructs the min strategy, the
constructed MinState's `receiver_timeout_ns` equals the environment-derived
process-wide default, even when the `fc` URI value carries a nonzero `t:`
option; the URI-supplied timeout is applied only by the preferred
supplier. -/
theorem min_strategy_timeout_is_env_default
    (pdur : List Char → Option Nat) (pint : List Char → Option Int)
    (min_env preferred_env : Int) (fc_param : Option (List Char)) (st : MinState)
    (h : aeron_default_multicast_flow_control_strategy_supplier pdur pint min_env
      preferred_env fc_param = .minStrategy st) :
    st.receiver_timeout_ns = min_env ∧ st.receivers = [] := by
  cases fc_param with
  | none => exact ConstructedStrategy.noConfusion h
  | some s =>
    have h2 : fc_selector_with_options pdur pint min_env preferred_env s =
        .minStrategy st := h
    unfold fc_selector_with_options at h2
    cases hp : aeron_flow_control_parse_preferred_options pdur pint s with
    | error e =>
      rw [hp] at h2
      exact ConstructedStrategy.noConfusion h2
    | ok opts =>
      rw [hp] at h2
      repeat' split at h2
      all_goals
        first
          | exact ConstructedStrategy.noConfusion h2
          | (injection h2 with h2; rw [← h2]; exact ⟨rfl, rfl⟩)

/-- Witness for the amended C5 at the counterexample input. -/
theorem min_strategy_timeout_is_env_default_witness :
    ({ receivers := [], receiver_timeout_ns := 999 } : MinState).receiver_timeout_ns = 999 ∧
    ({ receivers := [], receiver_timeout_ns := 999 } : MinState).receivers = [] :=
  min_strategy_timeout_is_env_default probe_dur probe_int 999 777
    (some ['m', 'i', 'n', ',', 't', ':', '5', 's'])
    { receivers := [], receiver_timeout_ns := 999 } rfl

end AeronFC
